import Mathlib

/-!
Verification of the fetch-normalize-query engine of the search-vdjdb
repository.  The tables manipulated by the code are embedded as lists of
association-list rows over string cells; the three regex rewrite rules of
`_fix_vj_format`, the dynamic AND-filter of `find`, the construct-column
projection, the `(complex.id, gene)` sort and the batch runner `file_query`
are translated directly from the source.
-/

namespace SearchVdjdb

/-- The single-quote character interpolated around query values in `find`. -/
def quoteC : Char := Char.ofNat 39

/-- Decimal digit test, mirroring the regex class `\d`. -/
def digitC (c : Char) : Bool := decide (48 ≤ c.toNat) && decide (c.toNat ≤ 57)

/-- Character class `[ABVJ]` of the first rewrite rule of `_fix_vj_format`. -/
def chainClass (c : Char) : Bool :=
  c = 'A' || c = 'B' || c = 'V' || c = 'J'

/-- Character class `[TCRABVJ]` of the second rewrite rule. -/
def tcrClass (c : Char) : Bool :=
  c = 'T' || c = 'C' || c = 'R' || c = 'A' || c = 'B' || c = 'V' || c = 'J'

/-- Whether a list of characters starts with a digit: the lookahead
`(?!\d)` of rules 2 and 3 fails exactly when this holds for the rest. -/
def headDig : List Char → Bool
  | [] => false
  | c :: _ => digitC c

/-- Whether the previous character (none at the start of the cell) lies in
the `[TCRABVJ]` class. -/
def prevTcr : Option Char → Bool
  | none => false
  | some c => tcrClass c

/-- Whether the previous character is the hyphen of rule 3. -/
def prevDash : Option Char → Bool
  | none => false
  | some c => c = '-'

/-- Whether the tail begins with `R` followed by a `[ABVJ]` character, i.e.
whether a preceding `T` starts a match of rule 1 `(T)(R[ABVJ]+)(.*)`. -/
def startsTRchain : List Char → Bool
  | 'R' :: d :: _ => chainClass d
  | _ => false

/-- Rule 1 of `_fix_vj_format`: `re.sub("(T)(R[ABVJ]+)(.*)", r"\1C\2\3", s)`.
The trailing `(.*)` swallows the remainder of the cell, so the substitution
fires at most once, at the leftmost `T` followed by `R[ABVJ]`, and inserts a
`C` after that `T` leaving everything else intact. -/
def sub1 : List Char → List Char
  | [] => []
  | c :: rest =>
    if c = 'T' && startsTRchain rest then c :: 'C' :: rest
    else c :: sub1 rest

/-- Rule 2 of `_fix_vj_format`, scanning with the previous character:
`re.sub("(?P<tcr>[TCRABVJ]+)(\d)(?!\d)", r"\g<tcr>0\2", s)` inserts a `0`
before every digit that immediately follows a `[TCRABVJ]` character and is
not itself followed by a digit. -/
def sub2Aux (p : Option Char) : List Char → List Char
  | [] => []
  | c :: rest =>
    if digitC c && prevTcr p && !headDig rest then
      '0' :: c :: sub2Aux (some c) rest
    else
      c :: sub2Aux (some c) rest

/-- Rule 2 applied to a whole cell. -/
def sub2 (l : List Char) : List Char := sub2Aux none l

/-- Rule 3 of `_fix_vj_format`:
`re.sub("(?P<dash>\-)(\d)(?!\d)", r"\g<dash>0\2", s)` inserts a `0` before
every digit that immediately follows a hyphen and is not itself followed by
a digit. -/
def sub3Aux (p : Option Char) : List Char → List Char
  | [] => []
  | c :: rest =>
    if digitC c && prevDash p && !headDig rest then
      '0' :: c :: sub3Aux (some c) rest
    else
      c :: sub3Aux (some c) rest

/-- Rule 3 applied to a whole cell. -/
def sub3 (l : List Char) : List Char := sub3Aux none l

/-- One pass of the `_fix_vj_format` pipeline over one cell: the three
rules applied in the order in which they appear in the `pat_rep` dict. -/
def fixCell (s : String) : String := ⟨sub3 (sub2 (sub1 s.data))⟩

/-- Whether a cell still contains a match site for rule 1. -/
def hasTR : List Char → Bool
  | [] => false
  | c :: rest => (c = 'T' && startsTRchain rest) || hasTR rest

/-! ## Tables and rows

A pandas `DataFrame` of the all-string snapshot is embedded as a list of
column names plus a list of rows; every row is an association list from
column name to string cell. -/

/-- One snapshot row: an association list from column name to cell text. -/
abbrev Row : Type := List (String × String)

/-- The embedded data frame. -/
structure Table where
  cols : List String
  rows : List Row
deriving DecidableEq

/-- Cell lookup in a row; rows of a well-formed frame carry every column. -/
def getCol : Row → String → String
  | [], _ => ""
  | (k, v) :: rest, c => if k = c then v else getCol rest c

/-- VDJdb column holding the locus (`gene`). -/
def geneCol : String := "gene"

/-- VDJdb column holding the CDR3 sequence. -/
def cdr3Col : String := "cdr3"

/-- VDJdb column holding the V segment (`v.segm`). -/
def vCol : String := "v.segm"

/-- VDJdb column holding the J segment (`j.segm`). -/
def jCol : String := "j.segm"

/-- VDJdb column holding the complex identifier (`complex.id`). -/
def complexCol : String := "complex.id"

/-- The alpha-chain locus value of the `gene` column. -/
def alphaLocus : String := "TRA"

/-- The beta-chain locus value of the `gene` column. -/
def betaLocus : String := "TRB"

/-- The construct-relevant projection columns, in the order produced by the
`vdjdb_`-prefixed attributes of `PublicTcrDb.__init__` in `query_db.py`. -/
def constructCols : List String := [geneCol, cdr3Col, vCol, jCol, complexCol]

/-- `_fix_vj_format` rewrites the `v.segm` and `j.segm` cells of one row. -/
def fixRow (r : Row) : Row :=
  r.map (fun kv => if kv.1 = vCol || kv.1 = jCol then (kv.1, fixCell kv.2) else kv)

/-- One pass of `_fix_vj_format` over the whole table. -/
def fixTable (t : Table) : Table := ⟨t.cols, t.rows.map fixRow⟩

/-! ## String comparison and the result sort

Python compares strings lexicographically by code point; `find` sorts its
result by `complex.id` then `gene` (all cells are strings in the
`dtype=str` snapshot). -/

/-- Strict code-point comparison of characters. -/
def chLtB (a b : Char) : Bool := decide (a.toNat < b.toNat)

/-- Lexicographic (code-point) order on character lists, as Python compares
strings. -/
def lexLe : List Char → List Char → Bool
  | [], _ => true
  | _ :: _, [] => false
  | a :: as, b :: bs => chLtB a b || (a = b && lexLe as bs)

/-- Lexicographic order on strings. -/
def strLeB (a b : String) : Bool := lexLe a.data b.data

/-- The `sort_values([complex.id, gene])` key order: ascending by
`complex.id`, ties broken ascending by `gene`. -/
def keyLeB (r s : Row) : Bool :=
  if getCol r complexCol = getCol s complexCol then
    strLeB (getCol r geneCol) (getCol s geneCol)
  else
    strLeB (getCol r complexCol) (getCol s complexCol)

/-- Insert a row into a list sorted by `le`. -/
def insRow (le : Row → Row → Bool) (r : Row) : List Row → List Row
  | [] => [r]
  | x :: xs => if le r x then r :: x :: xs else x :: insRow le r xs

/-- Sort the result rows by `le` (the embedding of `sort_values`). -/
def sortRows (le : Row → Row → Bool) : List Row → List Row
  | [] => []
  | x :: xs => insRow le x (sortRows le xs)

/-! ## The query evaluator `find` -/

/-- `startsB n h`: `h` starts with `n`. -/
def startsB : List Char → List Char → Bool
  | [], _ => true
  | _ :: _, [] => false
  | a :: as, b :: bs => a = b && startsB as bs

/-- `subListB n h`: `n` occurs somewhere inside `h` (Python `n in h`, the
semantics of `Series.str.contains(n, regex=False)`). -/
def subListB (n : List Char) : List Char → Bool
  | [] => startsB n []
  | c :: t => startsB n (c :: t) || subListB n t

/-- Literal substring containment of strings. -/
def subOf (needle hay : String) : Bool := subListB needle.data hay.data

/-- One row satisfies every `(column, substring)` pair of the query spec. -/
def specMatchB (r : Row) (spec : List (String × String)) : Bool :=
  spec.all (fun kv => subOf kv.2 (getCol r kv.1))

/-- Error raised when a generated filter expression fails to parse: a value
containing a single quote terminates the `'{v}'` literal early. -/
def errBadExpr : String := "SyntaxError"

/-- Error raised by `DataFrame.query` for an unknown backticked column. -/
def errUndefCol : String := "UndefinedVariableError"

/-- Error raised by `.loc` when a projection label is not a column. -/
def errKey : String := "KeyError"

/-- Construct projection of one row, as `.loc` restricts to the five
construct columns. -/
def projRow (r : Row) : Row := constructCols.map (fun c => (c, getCol r c))

/-- Embedding of `PublicTcrDb.find` from `query_db.py` (the table is passed
explicitly instead of living on `self`).  An empty or absent spec returns
the whole table untouched; otherwise the generated
``` `k`.str.contains('v', regex = False) ``` conjunction is evaluated —
a quote inside a value breaks the expression ( `errBadExpr` ), an unknown
column is `errUndefCol` — the optional construct projection is applied, and
the result is sorted by `complex.id` then `gene`. -/
def findE (db : Table) (spec : List (String × String)) (constructOnly : Bool) :
    Except String Table :=
  if spec = [] then Except.ok db
  else if spec.any (fun kv => kv.2.data.contains quoteC) then Except.error errBadExpr
  else if spec.any (fun kv => !db.cols.contains kv.1) then Except.error errUndefCol
  else if constructOnly then
    if constructCols.all (fun c => db.cols.contains c) then
      Except.ok ⟨constructCols,
        sortRows keyLeB ((db.rows.filter (fun r => specMatchB r spec)).map projRow)⟩
    else Except.error errKey
  else Except.ok ⟨db.cols, sortRows keyLeB (db.rows.filter (fun r => specMatchB r spec))⟩

deriving instance DecidableEq for Except

/-! ## The cache round trip of `_query.py`

`get_vdjdb` parses the release with `dtype=str` and `fillna("")`, then
caches with `to_csv`.  The cache-hit branch of `find` reloads with
`pd.read_csv(".vdjdb_tsv.gz", sep="\t")` and no `dtype` argument, so
`read_csv` re-infers column types: a column whose cells are all plain
digit strings comes back as an integer column and is then sorted
numerically instead of lexicographically (and empty-string cells come back
as NaN).  `findCached` embeds `find` running on the reloaded table. -/

/-- Whether every cell of a string column parses as a plain integer, the
condition under which `read_csv` re-infers the column as `int64`. -/
def allDigits (s : String) : Bool := !s.data.isEmpty && s.data.all digitC

/-- Numeric value of a digit string, as `read_csv` parses an int cell. -/
def natOfDigits (l : List Char) : Nat :=
  l.foldl (fun a c => a * 10 + (c.toNat - 48)) 0

/-- Sort key order used on the reloaded table when `complex.id` was
re-inferred as an integer column: ascending by the numeric value, ties
broken ascending by `gene`. -/
def keyLeNumB (r s : Row) : Bool :=
  if natOfDigits (getCol r complexCol).data = natOfDigits (getCol s complexCol).data then
    strLeB (getCol r geneCol) (getCol s geneCol)
  else
    decide (natOfDigits (getCol r complexCol).data < natOfDigits (getCol s complexCol).data)

/-- `find` evaluated against the cache round trip of the same table: the
filtering is unchanged, but when every `complex.id` cell is a digit string
the reloaded column is `int64` and `sort_values` compares numerically. -/
def findCached (db : Table) (spec : List (String × String)) (constructOnly : Bool) :
    Except String Table :=
  if spec = [] then Except.ok db
  else if spec.any (fun kv => kv.2.data.contains quoteC) then Except.error errBadExpr
  else if spec.any (fun kv => !db.cols.contains kv.1) then Except.error errUndefCol
  else if constructOnly then
    if constructCols.all (fun c => db.cols.contains c) then
      Except.ok ⟨constructCols,
        sortRows (if db.rows.all (fun r => allDigits (getCol r complexCol)) then keyLeNumB
          else keyLeB) ((db.rows.filter (fun r => specMatchB r spec)).map projRow)⟩
    else Except.error errKey
  else
    Except.ok ⟨db.cols,
      sortRows (if db.rows.all (fun r => allDigits (getCol r complexCol)) then keyLeNumB
        else keyLeB) (db.rows.filter (fun r => specMatchB r spec))⟩

/-! ## The `find` of the attrs-based revision `_query.py`

In `src/src/python/search_vdjdb/_query.py` the construct projection is
still written as
`[self.__dict__[a] for a in self.__dict__ if a.startswith("vdjdb_")]`, but
the class is now an attrs `@define` (slotted) class whose attributes are
`vdjdb_meta`, `logger` and `vdjdb`: accessing `self.__dict__` on the
slotted instance raises `AttributeError` (and even on an un-slotted
instance the only matching entry is the `VdjdbMeta` object, which is not a
list of column labels), so the `construct_only=True` branch always raises
instead of projecting. -/

/-- Error raised by the attrs revision when `self.__dict__` is accessed on
the slotted instance. -/
def errAttr : String := "AttributeError"

/-- Embedding of `find` from `_query.py`: identical to `findE` except that
the construct-only branch fails on the `self.__dict__` projection. -/
def findNewE (db : Table) (spec : List (String × String)) (constructOnly : Bool) :
    Except String Table :=
  if spec = [] then Except.ok db
  else if spec.any (fun kv => kv.2.data.contains quoteC) then Except.error errBadExpr
  else if spec.any (fun kv => !db.cols.contains kv.1) then Except.error errUndefCol
  else if constructOnly then Except.error errAttr
  else Except.ok ⟨db.cols, sortRows keyLeB (db.rows.filter (fun r => specMatchB r spec))⟩

/-! ## The batch runner `file_query` -/

/-- Name of the only attached database, hardcoded in `file_query`. -/
def vdjdbName : String := "vdjdb"

/-- Synthetic id used when no query file is given. -/
def fullVdjdbId : String := "full_vdjdb"

/-- Embedding of the `QueryResult` dataclass (the output path attribute is
set only by the output sink and is not modelled). -/
structure QueryResult where
  id : String
  result : Table
  query : List (String × String)
  db : String
deriving DecidableEq

/-- The loop body of `file_query`: evaluate each named query in
declaration order with `construct_only=False`, packaging each outcome; an
exception from `find` propagates out of the loop. -/
def runQueries (db : Table) :
    List (String × List (String × String)) → Except String (List QueryResult)
  | [] => Except.ok []
  | (i, q) :: rest =>
    match findE db q false with
    | Except.error e => Except.error e
    | Except.ok u =>
      match runQueries db rest with
      | Except.error e => Except.error e
      | Except.ok tail => Except.ok (⟨i, u, q, vdjdbName⟩ :: tail)

/-- Embedding of `PublicTcrDb.file_query`: with a query file, one
`QueryResult` per named query in declaration order; with no file, a single
result holding the whole table under the synthetic id. -/
def fileQuery (db : Table) :
    Option (List (String × List (String × String))) → Except String (List QueryResult)
  | some qs => runQueries db qs
  | none => Except.ok [⟨fullVdjdbId, db, [], vdjdbName⟩]

/-- Adjacent-pair check that a result row list is in the
`(complex.id, gene)` sort order. -/
def rowsSortedB : List Row → Bool
  | [] => true
  | [_] => true
  | a :: b :: t => keyLeB a b && rowsSortedB (b :: t)

/-! ## Concrete inputs used by the individual claims -/

/-- A segment cell with two unmarked `TRAV` occurrences: rule 1 rewrites
only the leftmost one. -/
def c1CexRow : Row := [(vCol, "TRAVTRAV"), (jCol, "TRAJ1")]

/-- Table whose normalization is not idempotent. -/
def c1CexTable : Table := ⟨[vCol, jCol], [c1CexRow]⟩

/-- An ordinary record with single-occurrence segment cells. -/
def c1WitRow : Row :=
  [(geneCol, "TRA"), (cdr3Col, "CAVR"), (vCol, "TRAV8-1"), (jCol, "TRAJ4"), (complexCol, "1")]

/-- Table on which normalization is idempotent. -/
def c1WitTable : Table := ⟨constructCols, [c1WitRow]⟩

/-- Query value containing a single quote. -/
def c2Needle : String := ⟨['C', 'A', quoteC, 'S', 'S']⟩

/-- A cdr3 cell literally containing `c2Needle`. -/
def c2CexRow : Row := [(cdr3Col, ⟨['C', 'A', quoteC, 'S', 'S', 'L', 'G']⟩)]

/-- Table with one row the quoted query ought to match. -/
def c2CexTable : Table := ⟨[cdr3Col], [c2CexRow]⟩

/-- The quoted query spec. -/
def c2CexSpec : List (String × String) := [(cdr3Col, c2Needle)]

/-- First example row of the spec's worked `find` example. -/
def c2WitRow1 : Row := [(cdr3Col, "CASSLGTDTQYF")]

/-- Second example row of the spec's worked `find` example. -/
def c2WitRow2 : Row := [(cdr3Col, "CAVRDSNYQLIW")]

/-- The spec's worked example table. -/
def c2WitTable : Table := ⟨[cdr3Col], [c2WitRow1, c2WitRow2]⟩

/-- The spec's worked example query. -/
def c2WitSpec : List (String × String) := [(cdr3Col, "CASS")]

/-- Alpha-chain row of complex 1. -/
def c3AlphaRow : Row := [(geneCol, "TRA"), (cdr3Col, "CAVR"), (complexCol, "1")]

/-- Beta-chain row of complex 1. -/
def c3BetaRow : Row := [(geneCol, "TRB"), (cdr3Col, "CASS"), (complexCol, "1")]

/-- An unsorted table (beta row stored before alpha row). -/
def c3CexTable : Table := ⟨[geneCol, cdr3Col, complexCol], [c3BetaRow, c3AlphaRow]⟩

/-- Query spec matching both chains. -/
def c3WitSpec : List (String × String) := [(geneCol, "TR")]

/-- The sorted result of `c3WitSpec` on `c3CexTable`. -/
def c3WitResult : Table := ⟨[geneCol, cdr3Col, complexCol], [c3AlphaRow, c3BetaRow]⟩

/-- Row of paired complex `2`. -/
def c4Row2 : Row := [(geneCol, "TRB"), (cdr3Col, "CASQ"), (complexCol, "2")]

/-- Row of paired complex `10`. -/
def c4Row10 : Row := [(geneCol, "TRA"), (cdr3Col, "CAVQ"), (complexCol, "10")]

/-- Table whose `complex.id` cells are digit strings of different widths. -/
def c4Table : Table := ⟨[geneCol, cdr3Col, complexCol], [c4Row2, c4Row10]⟩

/-- Query matching both rows of `c4Table`. -/
def c4Spec : List (String × String) := [(geneCol, "TR")]

/-- A full-annotation record. -/
def c5Row : Row :=
  [(geneCol, "TRB"), (cdr3Col, "CASSLGTDTQYF"), (vCol, "TCRBV07-06"),
   (jCol, "TCRBJ02-03"), (complexCol, "0"), ("species", "HomoSapiens")]

/-- Table carrying all five construct columns plus one extra column. -/
def c5Table : Table :=
  ⟨[geneCol, cdr3Col, vCol, jCol, complexCol, "species"], [c5Row]⟩

/-- Query spec matching `c5Row`. -/
def c5Spec : List (String × String) := [(cdr3Col, "CASS")]

/-- The spec's worked normalization input. -/
def c7In : String := "TRAV8-1"

/-- Canonical output of the three-rule pipeline on `c7In`. -/
def c7Out : String := "TCRAV08-01"

/-- Id of the first named query of the batch example. -/
def c8Id1 : String := "q1"

/-- Id of the second named query of the batch example. -/
def c8Id2 : String := "q2"

/-- The single record of the batch-query example table. -/
def c8Row : Row := [(cdr3Col, "CASSLGTDTQYF")]

/-- Batch-query example table. -/
def c8Table : Table := ⟨[cdr3Col], [c8Row]⟩

/-- First named query of the batch file: one match. -/
def c8Spec1 : List (String × String) := [(cdr3Col, "CASS")]

/-- Second named query of the batch file: zero matches. -/
def c8Spec2 : List (String × String) := [(cdr3Col, "WWWW")]

/-- Result of the first named query. -/
def c8Res1 : Table := ⟨[cdr3Col], [c8Row]⟩

/-- Result of the second named query: a valid empty result set. -/
def c8Res2 : Table := ⟨[cdr3Col], []⟩

/-- Quoted query value for the injection claim. -/
def c10Needle : String := ⟨['C', 'A', quoteC, 'S']⟩

/-- A cdr3 cell literally containing `c10Needle`. -/
def c10Row : Row := [(cdr3Col, ⟨['X', 'C', 'A', quoteC, 'S', 'F']⟩)]

/-- Table with one row whose cdr3 cell contains the quoted value. -/
def c10Table : Table := ⟨[cdr3Col], [c10Row]⟩

/-! ## Helper lemmas: booleans and conditionals -/

lemma bool_eq_false {b : Bool} (h : ¬ b = true) : b = false := by
  cases b
  · rfl
  · exact absurd rfl h

lemma ite_true_of {α : Sort _} {b : Bool} {x y : α} (h : b = true) :
    (if b then x else y) = x := by
  rw [h]
  simp

lemma ite_false_of {α : Sort _} {b : Bool} {x y : α} (h : b = false) :
    (if b then x else y) = y := by
  rw [h]
  simp

/-! ## Lemmas about the normalization pipeline

The key structural facts behind (non-)idempotence of `_fix_vj_format`:
rules 2 and 3 are individually idempotent and do not enable each other,
while rule 1 rewrites only the leftmost match site. -/

lemma sub2Aux_length (l : List Char) : ∀ p, l.length ≤ (sub2Aux p l).length := by
  induction l with
  | nil =>
    intro p
    simp [sub2Aux]
  | cons c rest ih =>
    intro p
    have h := ih (some c)
    simp only [sub2Aux]
    split
    · simp only [List.length_cons]
      omega
    · simp only [List.length_cons]
      omega

lemma sub3Aux_length (l : List Char) : ∀ p, l.length ≤ (sub3Aux p l).length := by
  induction l with
  | nil =>
    intro p
    simp [sub3Aux]
  | cons c rest ih =>
    intro p
    have h := ih (some c)
    simp only [sub3Aux]
    split
    · simp only [List.length_cons]
      omega
    · simp only [List.length_cons]
      omega

lemma sub2Aux_cons_eq {p : Option Char} {c : Char} {rest : List Char}
    (h : sub2Aux p (c :: rest) = c :: rest) :
    (digitC c && prevTcr p && !headDig rest) = false ∧ sub2Aux (some c) rest = rest := by
  by_cases hc : (digitC c && prevTcr p && !headDig rest) = true
  · exfalso
    simp only [sub2Aux, ite_true_of hc] at h
    have h2 : c :: sub2Aux (some c) rest = rest := by
      injection h with h1 h2
    have hlen := congrArg List.length h2
    simp only [List.length_cons] at hlen
    have := sub2Aux_length rest (some c)
    omega
  · refine ⟨bool_eq_false hc, ?_⟩
    simp only [sub2Aux, ite_false_of (bool_eq_false hc)] at h
    injection h

lemma headDig_sub2Aux (p : Option Char) (l : List Char) :
    headDig (sub2Aux p l) = headDig l := by
  cases l with
  | nil => rfl
  | cons c rest =>
    simp only [sub2Aux]
    split
    · rename_i hcond
      simp only [Bool.and_eq_true] at hcond
      have hd : digitC c = true := hcond.1.1
      have d0 : digitC '0' = true := by decide
      simp [headDig, hd, d0]
    · rfl

lemma headDig_sub3Aux (p : Option Char) (l : List Char) :
    headDig (sub3Aux p l) = headDig l := by
  cases l with
  | nil => rfl
  | cons c rest =>
    simp only [sub3Aux]
    split
    · rename_i hcond
      simp only [Bool.and_eq_true] at hcond
      have hd : digitC c = true := hcond.1.1
      have d0 : digitC '0' = true := by decide
      simp [headDig, hd, d0]
    · rfl

lemma sub2Aux_idem (l : List Char) : ∀ p, sub2Aux p (sub2Aux p l) = sub2Aux p l := by
  induction l with
  | nil =>
    intro p
    rfl
  | cons c rest ih =>
    intro p
    by_cases h : (digitC c && prevTcr p && !headDig rest) = true
    · have hparts := h
      simp only [Bool.and_eq_true] at hparts
      obtain ⟨⟨hd, hp⟩, hnd⟩ := hparts
      have d0 : digitC '0' = true := by decide
      have t0 : tcrClass '0' = false := by decide
      simp only [sub2Aux, ite_true_of h]
      simp [sub2Aux, headDig, prevTcr, hd, hp, d0, t0, ih (some c)]
    · have hf := bool_eq_false h
      simp only [sub2Aux, ite_false_of hf]
      have hc2 : (digitC c && prevTcr p && !headDig (sub2Aux (some c) rest)) = false := by
        rw [headDig_sub2Aux]
        exact hf
      simp only [sub2Aux, ite_false_of hc2, ih (some c)]

lemma sub3Aux_idem (l : List Char) : ∀ p, sub3Aux p (sub3Aux p l) = sub3Aux p l := by
  induction l with
  | nil =>
    intro p
    rfl
  | cons c rest ih =>
    intro p
    by_cases h : (digitC c && prevDash p && !headDig rest) = true
    · have hparts := h
      simp only [Bool.and_eq_true] at hparts
      obtain ⟨⟨hd, hp⟩, hnd⟩ := hparts
      have d0 : digitC '0' = true := by decide
      have t0 : ('0' = '-') = False := by simp
      simp only [sub3Aux, ite_true_of h]
      simp [sub3Aux, headDig, prevDash, hd, hp, d0, t0, ih (some c)]
    · have hf := bool_eq_false h
      simp only [sub3Aux, ite_false_of hf]
      have hc2 : (digitC c && prevDash p && !headDig (sub3Aux (some c) rest)) = false := by
        rw [headDig_sub3Aux]
        exact hf
      simp only [sub3Aux, ite_false_of hc2, ih (some c)]

lemma sub2Aux_sub3Aux (l : List Char) :
    ∀ p q, sub2Aux p l = l → sub2Aux p (sub3Aux q l) = sub3Aux q l := by
  induction l with
  | nil =>
    intro p q _
    rfl
  | cons c rest ih =>
    intro p q hfix
    obtain ⟨hcond2, htail⟩ := sub2Aux_cons_eq hfix
    by_cases h : (digitC c && prevDash q && !headDig rest) = true
    · have hparts := h
      simp only [Bool.and_eq_true] at hparts
      obtain ⟨⟨hd, hq⟩, hnd⟩ := hparts
      have d0 : digitC '0' = true := by decide
      have t0 : tcrClass '0' = false := by decide
      simp only [sub3Aux, ite_true_of h]
      simp [sub2Aux, headDig, prevTcr, hd, d0, t0, ih (some c) (some c) htail]
    · have hf := bool_eq_false h
      simp only [sub3Aux, ite_false_of hf]
      have hc2 : (digitC c && prevTcr p && !headDig (sub3Aux (some c) rest)) = false := by
        rw [headDig_sub3Aux]
        exact hcond2
      simp only [sub2Aux, ite_false_of hc2, ih (some c) (some c) htail]

lemma sub1_eq_of_not_hasTR {l : List Char} (h : hasTR l = false) : sub1 l = l := by
  induction l with
  | nil => rfl
  | cons c rest ih =>
    simp only [hasTR, Bool.or_eq_false_iff] at h
    simp only [sub1, ite_false_of h.1, ih h.2]

/-- Cell-level idempotence: if one pass of the pipeline leaves no rule-1
match site, the second pass is the identity. -/
lemma fixCell_idem {s : String} (h : hasTR (fixCell s).data = false) :
    fixCell (fixCell s) = fixCell s := by
  have hx : (fixCell s).data = sub3 (sub2 (sub1 s.data)) := rfl
  have h1 : sub1 (fixCell s).data = (fixCell s).data := sub1_eq_of_not_hasTR h
  have hu : sub2Aux none (sub2 (sub1 s.data)) = sub2 (sub1 s.data) :=
    sub2Aux_idem (sub1 s.data) none
  have h2 : sub2 (fixCell s).data = (fixCell s).data := by
    rw [hx]
    exact sub2Aux_sub3Aux (sub2 (sub1 s.data)) none none hu
  have h3 : sub3 (fixCell s).data = (fixCell s).data := by
    rw [hx]
    exact sub3Aux_idem (sub2 (sub1 s.data)) none
  show (⟨sub3 (sub2 (sub1 (fixCell s).data))⟩ : String) = fixCell s
  rw [h1, h2, h3]

/-! ## Lemmas about the lexicographic order and the result sort -/

lemma char_eq_of_toNat_eq {a b : Char} (h : a.toNat = b.toNat) : a = b := by
  have := congrArg Char.ofNat h
  simpa [Char.ofNat_toNat] using this

lemma lexLe_refl (x : List Char) : lexLe x x = true := by
  induction x with
  | nil => rfl
  | cons a as ih => simp [lexLe, ih]

lemma lexLe_total (x : List Char) : ∀ y, lexLe x y = false → lexLe y x = true := by
  induction x with
  | nil =>
    intro y h
    simp [lexLe] at h
  | cons a as ih =>
    intro y h
    cases y with
    | nil => rfl
    | cons b bs =>
      simp only [lexLe, Bool.or_eq_false_iff, Bool.and_eq_false_iff] at h
      by_cases hab : a = b
      · subst hab
        have hrest : lexLe as bs = false := by
          rcases h.2 with h' | h'
          · simp at h'
          · exact h'
        simp [lexLe, ih bs hrest]
      · have hne : a.toNat ≠ b.toNat := fun e => hab (char_eq_of_toNat_eq e)
        have hlt : ¬ a.toNat < b.toNat := by simpa [chLtB] using h.1
        have : b.toNat < a.toNat := by omega
        simp [lexLe, chLtB, this]

lemma lexLe_trans (x : List Char) :
    ∀ y z, lexLe x y = true → lexLe y z = true → lexLe x z = true := by
  induction x with
  | nil =>
    intro y z _ _
    rfl
  | cons a as ih =>
    intro y z h1 h2
    cases y with
    | nil => simp [lexLe] at h1
    | cons b bs =>
      cases z with
      | nil => simp [lexLe] at h2
      | cons d ds =>
        simp only [lexLe, Bool.or_eq_true, Bool.and_eq_true, decide_eq_true_eq,
          chLtB, decide_eq_true_eq] at h1 h2 ⊢
        rcases h1 with h1 | ⟨hab, h1⟩
        · rcases h2 with h2 | ⟨hbd, h2⟩
          · left
            omega
          · subst hbd
            left
            exact h1
        · subst hab
          rcases h2 with h2 | ⟨hbd, h2⟩
          · left
            exact h2
          · subst hbd
            right
            exact ⟨rfl, ih bs ds h1 h2⟩

lemma lexLe_antisymm (x : List Char) :
    ∀ y, lexLe x y = true → lexLe y x = true → x = y := by
  induction x with
  | nil =>
    intro y _ h2
    cases y with
    | nil => rfl
    | cons b bs => simp [lexLe] at h2
  | cons a as ih =>
    intro y h1 h2
    cases y with
    | nil => simp [lexLe] at h1
    | cons b bs =>
      simp only [lexLe, Bool.or_eq_true, Bool.and_eq_true, decide_eq_true_eq,
        chLtB, decide_eq_true_eq] at h1 h2
      rcases h1 with h1 | ⟨hab, h1⟩
      · rcases h2 with h2 | ⟨hba, h2⟩
        · omega
        · subst hba
          omega
      · subst hab
        rcases h2 with h2 | ⟨-, h2⟩
        · omega
        · rw [ih bs h1 h2]

lemma strLeB_refl (s : String) : strLeB s s = true := lexLe_refl s.data

lemma strLeB_total {a b : String} (h : strLeB a b = false) : strLeB b a = true :=
  lexLe_total a.data b.data h

lemma strLeB_trans {a b c : String} (h1 : strLeB a b = true) (h2 : strLeB b c = true) :
    strLeB a c = true :=
  lexLe_trans a.data b.data c.data h1 h2

lemma strLeB_antisymm {a b : String} (h1 : strLeB a b = true) (h2 : strLeB b a = true) :
    a = b := by
  have h := lexLe_antisymm a.data b.data h1 h2
  cases a
  cases b
  exact congrArg String.mk h

lemma keyLeB_total (r s : Row) (h : keyLeB r s = false) : keyLeB s r = true := by
  unfold keyLeB at h ⊢
  by_cases hc : getCol r complexCol = getCol s complexCol
  · rw [if_pos hc] at h
    rw [if_pos hc.symm]
    exact strLeB_total h
  · rw [if_neg hc] at h
    rw [if_neg (fun e => hc e.symm)]
    exact strLeB_total h

lemma keyLeB_trans (r s t : Row) (h1 : keyLeB r s = true) (h2 : keyLeB s t = true) :
    keyLeB r t = true := by
  unfold keyLeB at h1 h2 ⊢
  by_cases hc1 : getCol r complexCol = getCol s complexCol
  · rw [if_pos hc1] at h1
    by_cases hc2 : getCol s complexCol = getCol t complexCol
    · rw [if_pos hc2] at h2
      rw [if_pos (hc1.trans hc2)]
      exact strLeB_trans h1 h2
    · rw [if_neg hc2] at h2
      rw [if_neg (fun e => hc2 (hc1.symm.trans e)), hc1]
      exact h2
  · rw [if_neg hc1] at h1
    by_cases hc2 : getCol s complexCol = getCol t complexCol
    · rw [if_neg (fun e => hc1 (e.trans hc2.symm)), ← hc2]
      exact h1
    · rw [if_neg hc2] at h2
      by_cases hc3 : getCol r complexCol = getCol t complexCol
      · exfalso
        rw [← hc3] at h2
        exact hc1 (strLeB_antisymm h1 h2)
      · rw [if_neg hc3]
        exact strLeB_trans h1 h2

lemma keyLeB_mono (r s : Row) (h : keyLeB r s = true) :
    strLeB (getCol r complexCol) (getCol s complexCol) = true := by
  unfold keyLeB at h
  by_cases hc : getCol r complexCol = getCol s complexCol
  · rw [hc]
    exact strLeB_refl _
  · rw [if_neg hc] at h
    exact h

lemma mem_insRow {le : Row → Row → Bool} {a r : Row} :
    ∀ {l : List Row}, a ∈ insRow le r l ↔ a = r ∨ a ∈ l := by
  intro l
  induction l with
  | nil => simp [insRow]
  | cons x xs ih =>
    simp only [insRow]
    split
    · simp [List.mem_cons]
    · simp only [List.mem_cons, ih]
      tauto

lemma mem_sortRows {le : Row → Row → Bool} {a : Row} :
    ∀ {l : List Row}, a ∈ sortRows le l ↔ a ∈ l := by
  intro l
  induction l with
  | nil => simp [sortRows]
  | cons x xs ih => simp [sortRows, mem_insRow, ih, List.mem_cons]

lemma pairwise_insRow {le : Row → Row → Bool}
    (htot : ∀ x y, le x y = false → le y x = true)
    (htr : ∀ x y z, le x y = true → le y z = true → le x z = true)
    (r : Row) :
    ∀ {l : List Row}, List.Pairwise (fun a b => le a b = true) l →
      List.Pairwise (fun a b => le a b = true) (insRow le r l) := by
  intro l hl
  induction l with
  | nil => simp [insRow]
  | cons x xs ih =>
    obtain ⟨hx, hxs⟩ := List.pairwise_cons.mp hl
    simp only [insRow]
    split
    · rename_i hle
      refine List.pairwise_cons.mpr ⟨?_, hl⟩
      intro y hy
      rcases List.mem_cons.mp hy with rfl | hy'
      · exact hle
      · exact htr r x y hle (hx y hy')
    · rename_i hle
      have hxr : le x r = true := htot _ _ (bool_eq_false hle)
      refine List.pairwise_cons.mpr ⟨?_, ih hxs⟩
      intro y hy
      rcases mem_insRow.mp hy with rfl | hy'
      · exact hxr
      · exact hx y hy'

lemma pairwise_sortRows {le : Row → Row → Bool}
    (htot : ∀ x y, le x y = false → le y x = true)
    (htr : ∀ x y z, le x y = true → le y z = true → le x z = true) :
    ∀ (l : List Row), List.Pairwise (fun a b => le a b = true) (sortRows le l) := by
  intro l
  induction l with
  | nil => simp [sortRows]
  | cons x xs ih => exact pairwise_insRow htot htr x ih

/-- In a `(complex.id, gene)`-sorted list, the two rows of a complex that
occurs exactly twice are adjacent and in key order. -/
lemma sorted_pair_adjacent :
    ∀ (l : List Row), List.Pairwise (fun a b => keyLeB a b = true) l →
      ∀ (c : String) (r1 r2 : Row),
        l.filter (fun r => decide (getCol r complexCol = c)) = [r1, r2] →
        keyLeB r1 r2 = true ∧ ∃ i, l.get? i = some r1 ∧ l.get? (i + 1) = some r2 := by
  intro l
  induction l with
  | nil =>
    intro _ c r1 r2 h
    simp at h
  | cons x xs ih =>
    intro hp c r1 r2 hf
    obtain ⟨hx, hxs⟩ := List.pairwise_cons.mp hp
    rw [List.filter_cons] at hf
    by_cases hpx : getCol x complexCol = c
    · rw [ite_true_of (decide_eq_true hpx)] at hf
      have hx1 : x = r1 := by injection hf
      have hfrest : xs.filter (fun r => decide (getCol r complexCol = c)) = [r2] := by
        injection hf
      subst hx1
      cases xs with
      | nil => simp at hfrest
      | cons y ys =>
        rw [List.filter_cons] at hfrest
        by_cases hpy : getCol y complexCol = c
        · rw [ite_true_of (decide_eq_true hpy)] at hfrest
          have hy2 : y = r2 := by injection hfrest
          subst hy2
          exact ⟨hx y (List.mem_cons_self _ _), 0, rfl, rfl⟩
        · rw [ite_false_of (decide_eq_false hpy)] at hfrest
          exfalso
          have hr2mem : r2 ∈ ys.filter (fun r => decide (getCol r complexCol = c)) := by
            rw [hfrest]
            simp
          obtain ⟨hr2ys, hr2p⟩ := List.mem_filter.mp hr2mem
          have hr2c : getCol r2 complexCol = c := of_decide_eq_true hr2p
          have hxy : keyLeB x y = true := hx y (List.mem_cons_self _ _)
          have hyr2 : keyLeB y r2 = true := (List.pairwise_cons.mp hxs).1 r2 hr2ys
          have m1 := keyLeB_mono _ _ hxy
          have m2 := keyLeB_mono _ _ hyr2
          rw [hpx] at m1
          rw [hr2c] at m2
          exact hpy (strLeB_antisymm m2 m1)
    · rw [ite_false_of (decide_eq_false hpx)] at hf
      obtain ⟨hk, i, h1, h2⟩ := ih hxs c r1 r2 hf
      exact ⟨hk, i + 1, by simpa using h1, by simpa using h2⟩

/-! ## Lemmas about `findE` -/

lemma any_quote_false {spec : List (String × String)}
    (h : spec.all (fun kv => !kv.2.data.contains quoteC) = true) :
    spec.any (fun kv => kv.2.data.contains quoteC) = false := by
  rw [List.any_eq_false]
  intro x hx
  have := List.all_eq_true.mp h x hx
  simpa using this

lemma any_badcol_false {spec : List (String × String)} {t : Table}
    (h : spec.all (fun kv => t.cols.contains kv.1) = true) :
    spec.any (fun kv => !t.cols.contains kv.1) = false := by
  rw [List.any_eq_false]
  intro x hx
  have := List.all_eq_true.mp h x hx
  simpa using this

lemma findE_eval_noproj (t : Table) (spec : List (String × String)) (hne : spec ≠ [])
    (hq : spec.any (fun kv => kv.2.data.contains quoteC) = false)
    (hc : spec.any (fun kv => !t.cols.contains kv.1) = false) :
    findE t spec false =
      Except.ok ⟨t.cols, sortRows keyLeB (t.rows.filter (fun r => specMatchB r spec))⟩ := by
  unfold findE
  rw [if_neg hne, ite_false_of hq, ite_false_of hc, ite_false_of rfl]

lemma findE_ok_rows {t : Table} {spec : List (String × String)} {co : Bool} {u : Table}
    (hne : spec ≠ []) (h : findE t spec co = Except.ok u) :
    u.rows = sortRows keyLeB (t.rows.filter (fun r => specMatchB r spec)) ∨
    u.rows = sortRows keyLeB ((t.rows.filter (fun r => specMatchB r spec)).map projRow) := by
  unfold findE at h
  rw [if_neg hne] at h
  by_cases h1 : spec.any (fun kv => kv.2.data.contains quoteC) = true
  · rw [ite_true_of h1] at h
    cases h
  · rw [ite_false_of (bool_eq_false h1)] at h
    by_cases h2 : spec.any (fun kv => !t.cols.contains kv.1) = true
    · rw [ite_true_of h2] at h
      cases h
    · rw [ite_false_of (bool_eq_false h2)] at h
      cases co with
      | false =>
        rw [ite_false_of rfl] at h
        left
        injection h with h3
        rw [← h3]
      | true =>
        rw [ite_true_of rfl] at h
        by_cases h3 : constructCols.all (fun c => t.cols.contains c) = true
        · rw [ite_true_of h3] at h
          right
          injection h with h4
          rw [← h4]
        · rw [ite_false_of (bool_eq_false h3)] at h
          cases h

/-! ## The claims -/

/-- C1, counterexample: the three-rule pipeline is not idempotent on every
table.  On the cell `TRAVTRAV` rule 1 — whose trailing `(.*)` consumes the
rest of the cell — rewrites only the leftmost `TRAV`, so a second pass
rewrites the second occurrence and changes the table again. -/
theorem c1_normalize_not_idempotent_cex :
    fixTable (fixTable c1CexTable) ≠ fixTable c1CexTable := by decide

/-- C1, amended: one pass of `_fix_vj_format` applied twice is a no-op on
every table whose normalized `v.segm` / `j.segm` cells contain no residual
rule-1 match site (`T` directly followed by `R` and a chain letter) — rules
2 and 3 only fire on single unpadded digits, and rule 1 only fires on the
unmarked form, but rule 1 rewrites only the leftmost occurrence, so cells
with a second unmarked occurrence are excluded. -/
theorem c1_normalize_idempotent (t : Table)
    (h : ∀ r ∈ t.rows, ∀ kv ∈ r, (kv.1 = vCol ∨ kv.1 = jCol) →
      hasTR (fixCell kv.2).data = false) :
    fixTable (fixTable t) = fixTable t := by
  unfold fixTable
  refine congrArg (Table.mk t.cols) ?_
  rw [List.map_map]
  apply List.map_congr_left
  intro r hr
  show fixRow (fixRow r) = fixRow r
  unfold fixRow
  rw [List.map_map]
  apply List.map_congr_left
  intro kv hkv
  by_cases hor : kv.1 = vCol ∨ kv.1 = jCol
  · have hcell := fixCell_idem (h r hr kv hkv hor)
    simp [hor, hcell]
  · simp [hor]

/-- C1, witness: idempotence on a concrete single-occurrence table. -/
theorem c1_normalize_idempotent_witness :
    (∀ r ∈ c1WitTable.rows, ∀ kv ∈ r, (kv.1 = vCol ∨ kv.1 = jCol) →
      hasTR (fixCell kv.2).data = false) ∧
    fixTable (fixTable c1WitTable) = fixTable c1WitTable :=
  ⟨by decide, c1_normalize_idempotent c1WitTable (by decide)⟩

/-- C2, counterexample: `find` does not return the matching rows for every
query spec — a value containing a single quote breaks the interpolated
filter expression and `find` raises, even though the table has a row whose
cell literally contains that value. -/
theorem c2_find_quote_value_cex :
    findE c2CexTable c2CexSpec false = Except.error errBadExpr ∧
    subOf c2Needle (getCol c2CexRow cdr3Col) = true := by decide

/-- C2, amended: for every table and non-empty query spec whose values
contain no single quote and whose column names all exist, `find` succeeds
and returns exactly the rows in which, for every `(column, substring)`
pair, the row's value in that column contains the substring literally, all
pairs combined with logical AND. -/
theorem c2_find_filter_semantics (t : Table) (spec : List (String × String))
    (hne : spec ≠ [])
    (hq : spec.all (fun kv => !kv.2.data.contains quoteC) = true)
    (hc : spec.all (fun kv => t.cols.contains kv.1) = true) :
    ∃ u, findE t spec false = Except.ok u ∧ u.cols = t.cols ∧
      ∀ r : Row, r ∈ u.rows ↔
        (r ∈ t.rows ∧ ∀ kv ∈ spec, subOf kv.2 (getCol r kv.1) = true) := by
  refine ⟨_, findE_eval_noproj t spec hne (any_quote_false hq) (any_badcol_false hc),
    rfl, ?_⟩
  intro r
  rw [mem_sortRows, List.mem_filter]
  unfold specMatchB
  rw [List.all_eq_true]

/-- C2, witness: the spec's worked example — the query `cdr3 ↦ CASS`
against the two-row example table returns exactly the first row. -/
theorem c2_find_filter_semantics_witness :
    (c2WitSpec ≠ [] ∧
     c2WitSpec.all (fun kv => !kv.2.data.contains quoteC) = true ∧
     c2WitSpec.all (fun kv => c2WitTable.cols.contains kv.1) = true) ∧
    (∃ u, findE c2WitTable c2WitSpec false = Except.ok u ∧
      u.cols = c2WitTable.cols ∧
      ∀ r : Row, r ∈ u.rows ↔
        (r ∈ c2WitTable.rows ∧ ∀ kv ∈ c2WitSpec, subOf kv.2 (getCol r kv.1) = true)) ∧
    findE c2WitTable c2WitSpec false = Except.ok ⟨[cdr3Col], [c2WitRow1]⟩ :=
  ⟨⟨by decide, by decide, by decide⟩,
   c2_find_filter_semantics c2WitTable c2WitSpec (by decide) (by decide) (by decide),
   by decide⟩

/-- C3, counterexample: not every result table of `find` is sorted — the
empty-spec branch returns the stored table as is, here with the beta row of
complex 1 before its alpha row. -/
theorem c3_find_unsorted_passthrough_cex :
    findE c3CexTable [] false = Except.ok c3CexTable ∧
    rowsSortedB c3CexTable.rows = false := by decide

/-- C3, amended: every result table returned by `find` for a NON-empty
query spec is sorted ascending by `complex.id` then `gene`, and a complex
id occurring exactly twice has its two rows adjacent, the alpha-chain row
immediately before the beta-chain row. -/
theorem c3_find_sorted_and_paired (t : Table) (spec : List (String × String))
    (co : Bool) (u : Table) (hne : spec ≠ []) (h : findE t spec co = Except.ok u) :
    List.Pairwise (fun a b => keyLeB a b = true) u.rows ∧
    ∀ c : String, ∀ r1 r2 : Row,
      u.rows.filter (fun r => decide (getCol r complexCol = c)) = [r1, r2] →
      (∃ i, u.rows.get? i = some r1 ∧ u.rows.get? (i + 1) = some r2) ∧
      strLeB (getCol r1 geneCol) (getCol r2 geneCol) = true ∧
      ((getCol r1 geneCol = alphaLocus ∨ getCol r1 geneCol = betaLocus) →
       (getCol r2 geneCol = alphaLocus ∨ getCol r2 geneCol = betaLocus) →
       getCol r1 geneCol ≠ getCol r2 geneCol →
       getCol r1 geneCol = alphaLocus ∧ getCol r2 geneCol = betaLocus) := by
  have hp : List.Pairwise (fun a b => keyLeB a b = true) u.rows := by
    rcases findE_ok_rows hne h with hr | hr
    · rw [hr]
      exact pairwise_sortRows keyLeB_total keyLeB_trans _
    · rw [hr]
      exact pairwise_sortRows keyLeB_total keyLeB_trans _
  refine ⟨hp, ?_⟩
  intro c r1 r2 hf
  obtain ⟨hk, i, h1, h2⟩ := sorted_pair_adjacent u.rows hp c r1 r2 hf
  have hm1 : r1 ∈ u.rows.filter (fun r => decide (getCol r complexCol = c)) := by
    rw [hf]
    simp
  have hm2 : r2 ∈ u.rows.filter (fun r => decide (getCol r complexCol = c)) := by
    rw [hf]
    simp
  have hc1 : getCol r1 complexCol = c := of_decide_eq_true (List.mem_filter.mp hm1).2
  have hc2 : getCol r2 complexCol = c := of_decide_eq_true (List.mem_filter.mp hm2).2
  have hgene : strLeB (getCol r1 geneCol) (getCol r2 geneCol) = true := by
    unfold keyLeB at hk
    rw [if_pos (hc1.trans hc2.symm)] at hk
    exact hk
  refine ⟨⟨i, h1, h2⟩, hgene, ?_⟩
  intro ha hb hnegene
  rcases ha with ha | ha
  · rcases hb with hb | hb
    · exact absurd (ha.trans hb.symm) hnegene
    · exact ⟨ha, hb⟩
  · rcases hb with hb | hb
    · exfalso
      rw [ha, hb] at hgene
      exact absurd hgene (by decide)
    · exact absurd (ha.trans hb.symm) hnegene

/-- C3, witness: the two-chain example — the filtered result comes back
sorted with the alpha row of complex 1 immediately before its beta row. -/
theorem c3_find_sorted_and_paired_witness :
    (c3WitSpec ≠ [] ∧ findE c3CexTable c3WitSpec false = Except.ok c3WitResult) ∧
    (List.Pairwise (fun a b => keyLeB a b = true) c3WitResult.rows ∧
     ∀ c : String, ∀ r1 r2 : Row,
       c3WitResult.rows.filter (fun r => decide (getCol r complexCol = c)) = [r1, r2] →
       (∃ i, c3WitResult.rows.get? i = some r1 ∧
         c3WitResult.rows.get? (i + 1) = some r2) ∧
       strLeB (getCol r1 geneCol) (getCol r2 geneCol) = true ∧
       ((getCol r1 geneCol = alphaLocus ∨ getCol r1 geneCol = betaLocus) →
        (getCol r2 geneCol = alphaLocus ∨ getCol r2 geneCol = betaLocus) →
        getCol r1 geneCol ≠ getCol r2 geneCol →
        getCol r1 geneCol = alphaLocus ∧ getCol r2 geneCol = betaLocus)) :=
  ⟨⟨by decide, by decide⟩,
   c3_find_sorted_and_paired c3CexTable c3WitSpec false c3WitResult (by decide) (by decide)⟩

/-- C4: the cache round trip is not results-neutral.  The fresh `dtype=str`
table sorts `complex.id` lexicographically (`10` before `2`), the reloaded
cache re-infers the all-digit column as `int64` and sorts numerically
(`2` before `10`), so the same query returns the rows in different orders. -/
theorem c4_cache_changes_results :
    findE c4Table c4Spec false = Except.ok ⟨c4Table.cols, [c4Row10, c4Row2]⟩ ∧
    findCached c4Table c4Spec false = Except.ok ⟨c4Table.cols, [c4Row2, c4Row10]⟩ ∧
    findE c4Table c4Spec false ≠ findCached c4Table c4Spec false := by
  refine ⟨by decide, by decide, by decide⟩

/-- C5: in the current `_query.py` revision the construct-only projection
path always raises instead of returning the five construct columns — the
attrs `@define` class is slotted, so the `self.__dict__`-based projection
list fails — even on a table that carries all five construct columns. -/
theorem c5_construct_projection_raises :
    findNewE c5Table c5Spec true = Except.error errAttr ∧
    constructCols.all (fun c => c5Table.cols.contains c) = true := by decide

/-- C6: an empty (or absent) query spec with projection disabled
short-circuits: `find` returns the whole stored table unchanged. -/
theorem c6_find_empty_passthrough (t : Table) : findE t [] false = Except.ok t := rfl

/-- C7: one pass of the three-rule pipeline rewrites `TRAV8-1` to the
canonical `TCRAV08-01` (rule 1 inserts the `C` marker, rules 2 and 3 pad
the lone gene and allele digits), and a second pass leaves it unchanged. -/
theorem c7_trav_normalization_example :
    fixCell c7In = c7Out ∧ fixCell (fixCell c7In) = fixCell c7In := by decide

/-- C8: a batch run over a query file with two named queries, the second
of which yields zero matching rows, returns exactly two `QueryResult`
objects in declaration order — the empty result set is a valid result, not
an error. -/
theorem c8_file_query_two_results (db : Table) (i1 i2 : String)
    (q1 q2 : List (String × String)) (u1 u2 : Table)
    (h1 : findE db q1 false = Except.ok u1)
    (h2 : findE db q2 false = Except.ok u2)
    (hempty : u2.rows = []) :
    fileQuery db (some [(i1, q1), (i2, q2)]) =
      Except.ok [⟨i1, u1, q1, vdjdbName⟩, ⟨i2, u2, q2, vdjdbName⟩] ∧
    (⟨i2, u2, q2, vdjdbName⟩ : QueryResult).result.rows = [] := by
  constructor
  · simp [fileQuery, runQueries, h1, h2]
  · exact hempty

/-- C8, witness: the concrete two-query batch with one zero-match query. -/
theorem c8_file_query_two_results_witness :
    (findE c8Table c8Spec1 false = Except.ok c8Res1 ∧
     findE c8Table c8Spec2 false = Except.ok c8Res2 ∧ c8Res2.rows = []) ∧
    (fileQuery c8Table (some [(c8Id1, c8Spec1), (c8Id2, c8Spec2)]) =
       Except.ok [⟨c8Id1, c8Res1, c8Spec1, vdjdbName⟩,
         ⟨c8Id2, c8Res2, c8Spec2, vdjdbName⟩] ∧
     (⟨c8Id2, c8Res2, c8Spec2, vdjdbName⟩ : QueryResult).result.rows = []) :=
  ⟨⟨by decide, by decide, rfl⟩,
   c8_file_query_two_results c8Table c8Id1 c8Id2 c8Spec1 c8Spec2 c8Res1 c8Res2
     (by decide) (by decide) rfl⟩

/-- C9: with an empty (or absent) query spec the projection flag is
ignored — `find` returns the whole unprojected table even when
`construct_only` is true, identically to the unprojected call. -/
theorem c9_find_empty_ignores_projection (t : Table) :
    findE t [] true = Except.ok t ∧ findE t [] true = findE t [] false := ⟨rfl, rfl⟩

/-- C10: `find` is not total over substring values — a query value
containing a single quote is interpolated into the filter expression and
makes it unparsable, so `find` raises instead of returning the row whose
cell literally contains the value. -/
theorem c10_find_quote_injection_raises :
    findE c10Table [(cdr3Col, c10Needle)] false = Except.error errBadExpr ∧
    subOf c10Needle (getCol c10Row cdr3Col) = true := by decide

end SearchVdjdb
